import Mathlib

/-!
Verification of the checkers rule engine of JoniBach/three-svelte-demo.

The repository contains several drafts of the same rule set.  The most
evolved generator lives in `src/lib/components/checkers/utils/rules.ts`
(`getCheckerMovementRules`, `getCaptureMoves`) and, with an identical body,
in the unnamed Svelte component `src/unnamed/part_001`, which also holds the
commit logic (`movePiece`, `removePiece`, `onCanvasClick`).  An earlier draft
generator, without kings and without capture precedence, lives in
`Checkers.svelte`; a further draft with centered half-integer coordinates and
a two-square first-move rule lives in `three/Canvas.svelte`.  All of them are
embedded below, each faithful to its own source.
-/

namespace Checkers

/-- Grid coordinate, as in `entities.ts` `Position` (`x`, `y` numbers; the
game only ever produces integer coordinates). -/
structure Position where
  x : Int
  y : Int
deriving DecidableEq, Repr

/-- Piece, as in `entities.ts`: `id: string`, `position`, `color: number`,
`type: string`, optional `king`.  The optional `king ?? false` is embedded as
a `Bool` that defaults to `false` at construction sites. -/
structure Piece where
  id : String
  position : Position
  color : Nat
  type : String
  king : Bool
deriving DecidableEq, Repr

/-- Board size, as in `entities.ts` `BoardSize`. -/
structure BoardSize where
  x : Int
  y : Int
deriving DecidableEq, Repr

/-- The parts of `BoardConfig` the rule engine reads: `size` and `pieces`
(the rendering-only fields are omitted). -/
structure BoardConfig where
  size : BoardSize
  pieces : List Piece
deriving DecidableEq, Repr

/-- `0xff0000`, the red player (moves toward increasing y). -/
def redColor : Nat := 0xff0000

/-- `0x0000ff`, the blue player (moves toward decreasing y). -/
def blueColor : Nat := 0x0000ff

/-- `boardConfig.pieces?.find(p => p.position.x === x && p.position.y === y)`. -/
def findPieceAt (pieces : List Piece) (x y : Int) : Option Piece :=
  pieces.find? (fun p => decide (p.position.x = x ∧ p.position.y = y))

/-- `boardConfig.pieces?.some(p => p.position.x === x && p.position.y === y)`. -/
def hasPieceAt (pieces : List Piece) (x y : Int) : Bool :=
  pieces.any (fun p => decide (p.position.x = x ∧ p.position.y = y))

/-- `jumpX >= 0 && jumpX < size.x && jumpY >= 0 && jumpY < size.y`: the
bounds check used throughout the source. -/
def insideBoard (bc : BoardConfig) (pos : Position) : Prop :=
  0 ≤ pos.x ∧ pos.x < bc.size.x ∧ 0 ≤ pos.y ∧ pos.y < bc.size.y

instance (bc : BoardConfig) (pos : Position) : Decidable (insideBoard bc pos) := by
  unfold insideBoard; infer_instance

/-- The direction list built at the top of `getCheckerMovementRules`'s
`allowedMoves` (rules.ts lines 27-37, part_001 lines 171-181): four diagonals
for a king, the two forward diagonals otherwise (`+y` for red, `-y` for blue). -/
def checkerDirections (piece : Piece) : List Position :=
  if piece.king then
    [⟨1, 1⟩, ⟨-1, 1⟩, ⟨1, -1⟩, ⟨-1, -1⟩]
  else if piece.color = redColor then
    [⟨1, 1⟩, ⟨-1, 1⟩]
  else
    [⟨1, -1⟩, ⟨-1, -1⟩]

/-- Body of the `directions.forEach` loop of `getCaptureMoves` (rules.ts
lines 81-104, part_001 lines 226-250) for one direction: if the adjacent
diagonal cell holds a piece of the other color and the cell one further step
is inside the board and unoccupied, produce the jump destination. -/
def captureMoveInDir (piece : Piece) (bc : BoardConfig) (dir : Position) :
    Option Position :=
  let adjacentX := piece.position.x + dir.x
  let adjacentY := piece.position.y + dir.y
  match findPieceAt bc.pieces adjacentX adjacentY with
  | none => none
  | some occupiedPiece =>
    if piece.color = occupiedPiece.color then none
    else
      let jumpX := adjacentX + dir.x
      let jumpY := adjacentY + dir.y
      if insideBoard bc ⟨jumpX, jumpY⟩ ∧ hasPieceAt bc.pieces jumpX jumpY = false
      then some ⟨jumpX, jumpY⟩
      else none

set_option linter.unusedVariables false in
/-- `getCaptureMoves` (rules.ts lines 78-107, part_001 lines 218-253).  The
`capturedPieces` parameter exists in the source but is never read. -/
def getCaptureMoves (piece : Piece) (bc : BoardConfig) (directions : List Position)
    (capturedPieces : List Position) : List Position :=
  directions.filterMap (captureMoveInDir piece bc)

/-- Body of the step-move `directions.forEach` loop of `allowedMoves`
(rules.ts lines 50-68, part_001 lines 190-208) for one direction: an adjacent
diagonal cell that is inside the board and unoccupied is a step destination. -/
def stepMoveInDir (piece : Piece) (bc : BoardConfig) (dir : Position) :
    Option Position :=
  let adjacentX := piece.position.x + dir.x
  let adjacentY := piece.position.y + dir.y
  if insideBoard bc ⟨adjacentX, adjacentY⟩ then
    match findPieceAt bc.pieces adjacentX adjacentY with
    | none => some ⟨adjacentX, adjacentY⟩
    | some _ => none
  else none

/-- `getCheckerMovementRules().allowedMoves` (rules.ts lines 22-71, part_001
lines 165-212): capture moves are computed first and returned alone when any
exist; otherwise the unoccupied in-bounds adjacent diagonals are returned. -/
def allowedMovesChecker (piece : Piece) (bc : BoardConfig) : List Position :=
  let directions := checkerDirections piece
  let captureMoves := getCaptureMoves piece bc directions []
  if captureMoves.length > 0 then captureMoves
  else directions.filterMap (stepMoveInDir piece bc)

/-- The `MovementRules` record of `entities.ts` (part_001 signature:
`allowedMoves(piece, boardConfig)`). -/
structure MovementRules where
  allowedMoves : Piece → BoardConfig → List Position
  canCapture : Piece → Piece → Bool

/-- `getCheckerMovementRules()` as a record (rules.ts lines 20-74, part_001
lines 163-215). -/
def getCheckerMovementRules : MovementRules where
  allowedMoves := allowedMovesChecker
  canCapture := fun piece targetPiece => decide (piece.color ≠ targetPiece.color)

/-- `getMovementRulesForPiece` (rules.ts lines 5-17, part_001 lines 255-261):
returns the checker rules for `type === 'checker'` and otherwise throws
`Unsupported piece type: ...`; the throw is embedded as `Except.error`. -/
def getMovementRulesForPiece (piece : Piece) : Except String MovementRules :=
  if piece.type = "checker" then Except.ok getCheckerMovementRules
  else Except.error ("Unsupported piece type: " ++ piece.type)

/-- `currentPlayer = currentPlayer === 0xff0000 ? 0x0000ff : 0xff0000`
(part_001 line 420). -/
def togglePlayer (currentPlayer : Nat) : Nat :=
  if currentPlayer = redColor then blueColor else redColor

/-- The capture detection at the top of `movePiece` (part_001 lines 360-377):
when `|deltaX| === 2 && |deltaY| === 2`, look up the piece on the jumped-over
square `(from + delta/2)`; otherwise no piece is captured. -/
def capturedPieceFor (bc : BoardConfig) (piece : Piece) (newPosition : Position) :
    Option Piece :=
  let deltaX := newPosition.x - piece.position.x
  let deltaY := newPosition.y - piece.position.y
  if deltaX.natAbs = 2 ∧ deltaY.natAbs = 2 then
    findPieceAt bc.pieces (piece.position.x + deltaX / 2) (piece.position.y + deltaY / 2)
  else none

/-- The mutation `piece.position = newPosition` followed by the king
promotion check of `movePiece` (part_001 lines 379-397): promotion fires when
a red piece reaches row `7` or a blue piece reaches row `0` (the rows are
hard-coded in the source, they are not derived from the board size). -/
def movedPieceOf (piece : Piece) (newPosition : Position) : Piece :=
  if (piece.color = redColor ∧ newPosition.y = 7) ∨
     (piece.color = blueColor ∧ newPosition.y = 0) then
    { piece with position := newPosition, king := true }
  else
    { piece with position := newPosition }

/-- `removePiece` (part_001 lines 423-436) on the pieces array: splice out
the first occurrence of the captured piece object. -/
def removePieceList (pieces : List Piece) (piece : Piece) : List Piece :=
  pieces.erase piece

/-- The pieces array of `movePiece` right after the `removePiece` call
(part_001 lines 363-377): the captured piece, when there is one, has been
spliced out. -/
def erasedPieces (bc : BoardConfig) (piece : Piece) (newPosition : Position) :
    List Piece :=
  match capturedPieceFor bc piece newPosition with
  | some capturedPiece => removePieceList bc.pieces capturedPiece
  | none => bc.pieces

/-- The pieces array after `movePiece` commits: the captured piece (if any)
is spliced out, then the moved piece object — an element of the array — is
mutated in place, which the embedding renders as replacing the entries whose
`id` matches (the source relies on piece ids being unique). -/
def boardAfterMove (bc : BoardConfig) (piece : Piece) (newPosition : Position) :
    BoardConfig :=
  let movedPieces := (erasedPieces bc piece newPosition).map
    (fun p => if p.id = piece.id then movedPieceOf piece newPosition else p)
  { bc with pieces := movedPieces }

/-- The observable outcome of `movePiece`: the mutated `boardConfig.pieces`,
`validMoves`, `selectedPiece` and `currentPlayer` component state. -/
structure MoveOutcome where
  board : BoardConfig
  validMoves : List Position
  selectedPiece : Option Piece
  currentPlayer : Nat
deriving DecidableEq, Repr

/-- `movePiece` (part_001 lines 357-421).  After removing a captured piece,
updating the moved piece's position and applying the promotion check, the
code re-invokes `getMovementRulesForPiece(piece).allowedMoves(piece,
boardConfig)` on the updated state when the move was a capture: if that list
is non-empty it returns early, keeping `selectedPiece` and `currentPlayer`;
otherwise (and for every non-capture move) it deselects and flips the
player.  The `throw` inside `getMovementRulesForPiece` surfaces as
`Except.error`. -/
def movePiece (bc : BoardConfig) (currentPlayer : Nat) (piece : Piece)
    (newPosition : Position) : Except String MoveOutcome :=
  let isCaptureMove := (capturedPieceFor bc piece newPosition).isSome
  let movedPiece := movedPieceOf piece newPosition
  let bc2 := boardAfterMove bc piece newPosition
  if isCaptureMove then
    match getMovementRulesForPiece movedPiece with
    | Except.error e => Except.error e
    | Except.ok movementRules =>
      let validMoves := movementRules.allowedMoves movedPiece bc2
      if validMoves.length > 0 then
        Except.ok ⟨bc2, validMoves, some movedPiece, currentPlayer⟩
      else
        Except.ok ⟨bc2, [], none, togglePlayer currentPlayer⟩
  else
    Except.ok ⟨bc2, [], none, togglePlayer currentPlayer⟩

/-- The component state read and written by the selection branch of
`onCanvasClick` (part_001 lines 313-350, Checkers.svelte lines 377-422). -/
structure GameState where
  board : BoardConfig
  selectedPiece : Option Piece
  validMoves : List Position
  currentPlayer : Nat
deriving DecidableEq, Repr

/-- The piece-selection branch of `onCanvasClick` (part_001 lines 342-347,
Checkers.svelte lines 414-419): a clicked piece is selected, and its legal
moves computed, only when `clickedPiece.color === currentPlayer`; otherwise
the handler falls through and no state is written. -/
def selectPieceClick (st : GameState) (clickedPiece : Piece) :
    Except String GameState :=
  if clickedPiece.color = st.currentPlayer then
    match getMovementRulesForPiece clickedPiece with
    | Except.error e => Except.error e
    | Except.ok movementRules =>
      Except.ok { st with
        selectedPiece := some clickedPiece,
        validMoves := movementRules.allowedMoves clickedPiece st.board }
  else
    Except.ok st

end Checkers

namespace CheckersDraft

open Checkers

/-- The direction list of the earlier draft generator in `Checkers.svelte`
(lines 240-243): always the two forward diagonals, there are no kings in
this draft. -/
def draftDirections (piece : Piece) : List Position :=
  if piece.color = redColor then [⟨1, 1⟩, ⟨-1, 1⟩] else [⟨1, -1⟩, ⟨-1, -1⟩]

/-- Body of the `directions.forEach` loop of the draft `allowedMoves`
(Checkers.svelte lines 246-280) for one direction: an empty in-bounds
adjacent cell is pushed as a step, and an adjacent opponent with a free
in-bounds cell behind it is pushed as a jump — both into the same list. -/
def draftMovesInDir (piece : Piece) (bc : BoardConfig) (dir : Position) :
    List Position :=
  let adjacentX := piece.position.x + dir.x
  let adjacentY := piece.position.y + dir.y
  if insideBoard bc ⟨adjacentX, adjacentY⟩ then
    match findPieceAt bc.pieces adjacentX adjacentY with
    | none => [⟨adjacentX, adjacentY⟩]
    | some occupiedPiece =>
      if occupiedPiece.color ≠ piece.color then
        let jumpX := piece.position.x + dir.x * 2
        let jumpY := piece.position.y + dir.y * 2
        if insideBoard bc ⟨jumpX, jumpY⟩ ∧ hasPieceAt bc.pieces jumpX jumpY = false
        then [⟨jumpX, jumpY⟩]
        else []
      else []
  else []

/-- `getCheckerMovementRules().allowedMoves` of the `Checkers.svelte` draft
(lines 235-283): steps and jumps are accumulated together, with no capture
precedence. -/
def allowedMovesDraft (piece : Piece) (bc : BoardConfig) : List Position :=
  (draftDirections piece).flatMap (draftMovesInDir piece bc)

end CheckersDraft

namespace CanvasDraft

/-- Square-center coordinate of the `three/Canvas.svelte` draft: the board
squares sit at `i - width/2 + 0.5`, so coordinates are half-integers; they
are embedded as rationals. -/
structure CPos where
  x : Rat
  z : Rat
deriving DecidableEq, Repr

/-- `CaptureMove = Position & captureX/captureZ` (Canvas.svelte line 34). -/
structure CCaptureMove where
  x : Rat
  z : Rat
  captureX : Rat
  captureZ : Rat
deriving DecidableEq, Repr

/-- A piece mesh of the Canvas draft, reduced to the `position` and
`userData` fields the rules read. -/
structure CPiece where
  x : Rat
  z : Rat
  color : Nat
  isKing : Bool
  hasMoved : Bool
deriving DecidableEq, Repr

/-- `isWithinBounds` (Canvas.svelte lines 373-377). -/
def isWithinBounds (move : CPos) (width height : Rat) : Prop :=
  -(width / 2) ≤ move.x ∧ move.x < width / 2 ∧
  -(height / 2) ≤ move.z ∧ move.z < height / 2

instance (move : CPos) (width height : Rat) :
    Decidable (isWithinBounds move width height) := by
  unfold isWithinBounds; infer_instance

/-- `isOccupied` (Canvas.svelte lines 380-385): any piece mesh sits at the
given square center. -/
def isOccupied (position : CPos) (scene : List CPiece) : Bool :=
  scene.any (fun child => decide (child.x = position.x ∧ child.z = position.z))

/-- `getOpponentPieceAt` (Canvas.svelte lines 388-401). -/
def getOpponentPieceAt (x z : Rat) (scene : List CPiece) (color : Nat) :
    Option CPiece :=
  scene.find? (fun child => decide (child.x = x ∧ child.z = z ∧ child.color ≠ color))

/-- `getPotentialMoves` (Canvas.svelte lines 267-294): a king gets the four
diagonals; a non-king that has moved gets the two forward diagonals; a
non-king that has not moved additionally gets the two two-square forward
diagonals. -/
def getPotentialMoves (x z : Rat) (isKing : Bool) (movementDirection : Rat)
    (hasMoved : Bool) : List CPos :=
  if isKing then
    [⟨x + 1, z + movementDirection⟩, ⟨x - 1, z + movementDirection⟩,
     ⟨x + 1, z - movementDirection⟩, ⟨x - 1, z - movementDirection⟩]
  else if hasMoved then
    [⟨x + 1, z + movementDirection⟩, ⟨x - 1, z + movementDirection⟩]
  else
    [⟨x + 1, z + movementDirection⟩, ⟨x - 1, z + movementDirection⟩,
     ⟨x + 2, z + movementDirection * 2⟩, ⟨x - 2, z + movementDirection * 2⟩]

/-- `getCaptureMoves` of the Canvas draft (Canvas.svelte lines 297-331). -/
def getCaptureMovesCanvas (x z : Rat) (isKing : Bool) (movementDirection : Rat) :
    List CCaptureMove :=
  if isKing then
    [⟨x + 2, z + 2 * movementDirection, x + 1, z + movementDirection⟩,
     ⟨x - 2, z + 2 * movementDirection, x - 1, z + movementDirection⟩,
     ⟨x + 2, z - 2 * movementDirection, x + 1, z - movementDirection⟩,
     ⟨x - 2, z - 2 * movementDirection, x - 1, z - movementDirection⟩]
  else
    [⟨x + 2, z + 2 * movementDirection, x + 1, z + movementDirection⟩,
     ⟨x - 2, z + 2 * movementDirection, x - 1, z + movementDirection⟩]

/-- `addValidMoves` (Canvas.svelte lines 334-346): keep the in-bounds,
unoccupied candidates. -/
def addValidMoves (moves : List CPos) (width height : Rat) (scene : List CPiece) :
    List CPos :=
  moves.filter (fun move =>
    decide (isWithinBounds move width height) && !isOccupied move scene)

/-- `addValidCaptures` (Canvas.svelte lines 349-370): keep the in-bounds
candidates whose jumped square holds an opponent and whose landing square is
free. -/
def addValidCaptures (moves : List CCaptureMove) (width height : Rat)
    (scene : List CPiece) (piece : CPiece) : List CPos :=
  moves.filterMap (fun move =>
    if isWithinBounds ⟨move.x, move.z⟩ width height then
      match getOpponentPieceAt move.captureX move.captureZ scene piece.color with
      | some _ =>
        if !isOccupied ⟨move.x, move.z⟩ scene then some ⟨move.x, move.z⟩ else none
      | none => none
    else none)

/-- `0xff0000`, `colorB` of the Canvas draft (its `movementDirection = 1`
player). -/
def colorB : Nat := 0xff0000

/-- `getLegalMoves` (Canvas.svelte lines 246-264): valid steps followed by
valid captures, in push order. -/
def getLegalMoves (piece : CPiece) (width height : Rat) (scene : List CPiece) :
    List CPos :=
  let movementDirection : Rat := if piece.color = colorB then 1 else -1
  let potentialMoves :=
    getPotentialMoves piece.x piece.z piece.isKing movementDirection piece.hasMoved
  let captureMoves := getCaptureMovesCanvas piece.x piece.z piece.isKing movementDirection
  addValidMoves potentialMoves width height scene ++
    addValidCaptures captureMoves width height scene piece

end CanvasDraft

namespace Checkers

/-! Concrete game positions used to instantiate the theorems below. -/

/-- Red checker on (2,2), used for the capture-precedence counterexample. -/
def c1Piece : Piece := ⟨"r1", ⟨2, 2⟩, redColor, "checker", false⟩

/-- 8×8 board with `c1Piece` and a blue checker on (3,3): (4,4) is a legal
jump and (1,3) a legal step. -/
def c1Board : BoardConfig := ⟨⟨8, 8⟩, [c1Piece, ⟨"b1", ⟨3, 3⟩, blueColor, "checker", false⟩]⟩

/-- Red checker on (0,0). -/
def w1Piece : Piece := ⟨"r1", ⟨0, 0⟩, redColor, "checker", false⟩

/-- 8×8 board with `w1Piece` and a blue checker on (1,1): the jump to (2,2)
is the only legal move. -/
def w1Board : BoardConfig := ⟨⟨8, 8⟩, [w1Piece, ⟨"b1", ⟨1, 1⟩, blueColor, "checker", false⟩]⟩

/-- Red checker on (0,0), about to capture the blue checker on (1,1). -/
def c2Piece : Piece := ⟨"r2", ⟨0, 0⟩, redColor, "checker", false⟩

/-- 8×8 board for the continuation bug: red on (0,0), blue on (1,1). -/
def c2Board : BoardConfig := ⟨⟨8, 8⟩, [c2Piece, ⟨"b2", ⟨1, 1⟩, blueColor, "checker", false⟩]⟩

/-- `c2Piece` after the jump to (2,2). -/
def c2Moved : Piece := ⟨"r2", ⟨2, 2⟩, redColor, "checker", false⟩

/-- The board after `c2Piece` jumps to (2,2) and the blue checker is removed. -/
def c2BoardAfter : BoardConfig := ⟨⟨8, 8⟩, [c2Moved]⟩

/-- Red checker on (0,8) of an 8×10 board, one step from the opponent's back
rank at row 9. -/
def c3Piece : Piece := ⟨"r3", ⟨0, 8⟩, redColor, "checker", false⟩

/-- 8×10 board holding only `c3Piece`. -/
def c3Board : BoardConfig := ⟨⟨8, 10⟩, [c3Piece]⟩

/-- Red checker on (2,6) of the standard 8×8 board, one step from row 7. -/
def w3Piece : Piece := ⟨"r3", ⟨2, 6⟩, redColor, "checker", false⟩

/-- 8×8 board holding only `w3Piece`. -/
def w3Board : BoardConfig := ⟨⟨8, 8⟩, [w3Piece]⟩

/-- Red checker on (0,0), used for the capture-move characterization. -/
def c4Piece : Piece := ⟨"r4", ⟨0, 0⟩, redColor, "checker", false⟩

/-- 8×8 board with `c4Piece` and a blue checker on (1,1): the generated
capture list is exactly the destination (2,2). -/
def c4Board : BoardConfig := ⟨⟨8, 8⟩, [c4Piece, ⟨"b4", ⟨1, 1⟩, blueColor, "checker", false⟩]⟩

/-- Red checker on (0,0) for the occupancy-invariant witness. -/
def c5Piece : Piece := ⟨"r5", ⟨0, 0⟩, redColor, "checker", false⟩

/-- 8×8 board with `c5Piece` and a blue checker on (1,1). -/
def c5Board : BoardConfig := ⟨⟨8, 8⟩, [c5Piece, ⟨"b5", ⟨1, 1⟩, blueColor, "checker", false⟩]⟩

/-- Non-king red checker on (2,2) of an otherwise empty 8×8 board. -/
def w6Piece : Piece := ⟨"r6", ⟨2, 2⟩, redColor, "checker", false⟩

/-- 8×8 board holding only `w6Piece`. -/
def w6Board : BoardConfig := ⟨⟨8, 8⟩, [w6Piece]⟩

/-- A red king, used for the king-directions clause. -/
def w6King : Piece := ⟨"k6", ⟨4, 4⟩, redColor, "checker", true⟩

/-- The unmoved non-king Canvas-draft piece at square center (0.5, 0.5). -/
def c6Piece : CanvasDraft.CPiece := ⟨1/2, 1/2, CanvasDraft.colorB, false, false⟩

/-- The Canvas-draft scene holding only `c6Piece`. -/
def c6Scene : List CanvasDraft.CPiece := [c6Piece]

/-- A blue checker on (5,5), to be clicked while it is red's turn. -/
def c7Piece : Piece := ⟨"b7", ⟨5, 5⟩, blueColor, "checker", false⟩

/-- Game state on red's turn whose board holds a red checker and `c7Piece`. -/
def c7State : GameState :=
  ⟨⟨⟨8, 8⟩, [⟨"r7", ⟨0, 0⟩, redColor, "checker", false⟩, c7Piece]⟩, none, [], redColor⟩

/-- Red checker on (4,0), about to capture the blue checker on (5,1). -/
def c8Piece : Piece := ⟨"r8", ⟨4, 0⟩, redColor, "checker", false⟩

/-- 8×8 board for the turn-flip counterexample: red on (4,0), blue on (5,1). -/
def c8Board : BoardConfig := ⟨⟨8, 8⟩, [c8Piece, ⟨"b8", ⟨5, 1⟩, blueColor, "checker", false⟩]⟩

/-- `c8Piece` after the jump to (6,2). -/
def c8Moved : Piece := ⟨"r8", ⟨6, 2⟩, redColor, "checker", false⟩

/-- The board after `c8Piece` jumps to (6,2) and the blue checker is removed. -/
def c8BoardAfter : BoardConfig := ⟨⟨8, 8⟩, [c8Moved]⟩

/-- Red checker on (2,0) for the round-trip witness. -/
def c9Piece : Piece := ⟨"r9", ⟨2, 0⟩, redColor, "checker", false⟩

/-- 8×8 board with `c9Piece` and a blue checker on (3,1). -/
def c9Board : BoardConfig := ⟨⟨8, 8⟩, [c9Piece, ⟨"b9", ⟨3, 1⟩, blueColor, "checker", false⟩]⟩

/-- A piece whose `type` is not `'checker'`. -/
def c10Pawn : Piece := ⟨"p10", ⟨0, 0⟩, redColor, "pawn", false⟩

/-- A piece whose `type` is `'checker'`. -/
def c10Checker : Piece := ⟨"c10", ⟨0, 0⟩, redColor, "checker", false⟩

/-- Red checker alone on (0,0) of an 8×8 board. -/
def w8Piece : Piece := ⟨"w8", ⟨0, 0⟩, redColor, "checker", false⟩

/-- 8×8 board holding only `w8Piece`. -/
def w8Board : BoardConfig := ⟨⟨8, 8⟩, [w8Piece]⟩

/-- The outcome of the plain step `w8Piece` (0,0) → (1,1): deselected, no
moves offered, turn passed to blue. -/
def w8Outcome : MoveOutcome :=
  ⟨⟨⟨8, 8⟩, [⟨"w8", ⟨1, 1⟩, redColor, "checker", false⟩]⟩, [], none, blueColor⟩

/-- The forward row direction of a non-king piece: `+1` for red, `-1` for
blue (the `isRedPlayer ? 1 : -1` of the generator). -/
def forwardDir (piece : Piece) : Int :=
  if piece.color = redColor then 1 else -1

/-- `c5Piece` after its jump to (2,2). -/
def c5Moved : Piece := ⟨"r5", ⟨2, 2⟩, redColor, "checker", false⟩

/-- The board after `c5Piece` jumps to (2,2) and the blue checker is removed. -/
def c5BoardAfter : BoardConfig := ⟨⟨8, 8⟩, [c5Moved]⟩

/-- The full outcome of the jump of `c5Piece` to (2,2). -/
def c5Outcome : MoveOutcome :=
  ⟨c5BoardAfter, [⟨3, 3⟩, ⟨1, 3⟩], some c5Moved, redColor⟩

/-- `c9Piece` after its jump to (4,2). -/
def c9Moved : Piece := ⟨"r9", ⟨4, 2⟩, redColor, "checker", false⟩

/-- The full outcome of the jump of `c9Piece` to (4,2): the generator is
re-run on the post-move board and finds the two steps from (4,2). -/
def c9Outcome : MoveOutcome :=
  ⟨⟨⟨8, 8⟩, [c9Moved]⟩, [⟨5, 3⟩, ⟨3, 3⟩], some c9Moved, redColor⟩

/-- `legalMoves(pieceId)` of the spec's external interface: look the piece up
by id in the mutated `boardConfig.pieces` and run the generator on the
current board, exactly as the selection branch of `onCanvasClick` does
(part_001 lines 337-346). -/
def legalMovesById (bc : BoardConfig) (pieceId : String) : List Position :=
  match bc.pieces.find? (fun p => decide (p.id = pieceId)) with
  | some piece => allowedMovesChecker piece bc
  | none => []

/-- Distinct-occupancy and distinct-id validity of a board: the spec's
"no two pieces share a square" invariant plus the unique piece ids that the
source's id-keyed mesh map presupposes. -/
def ValidBoard (bc : BoardConfig) : Prop :=
  (bc.pieces.map Piece.id).Nodup ∧
  bc.pieces.Pairwise (fun p q => p.position ≠ q.position)

instance (bc : BoardConfig) : Decidable (ValidBoard bc) := by
  unfold ValidBoard; infer_instance

/-- One committed move, as a relation between the board before and the board
after: some player commits `movePiece` on a destination the generator offers
for the moved piece. -/
def CommitStep (bc bc' : BoardConfig) : Prop :=
  ∃ (cur : Nat) (piece : Piece) (newPos : Position) (st' : MoveOutcome),
    newPos ∈ allowedMovesChecker piece bc ∧
    movePiece bc cur piece newPos = Except.ok st' ∧
    bc' = st'.board

lemma position_eq_iff (p : Position) (x y : Int) :
    p = ⟨x, y⟩ ↔ p.x = x ∧ p.y = y := by
  cases p; simp

lemma findPieceAt_eq_some (pieces : List Piece) (x y : Int) (q : Piece)
    (h : findPieceAt pieces x y = some q) : q ∈ pieces ∧ q.position = ⟨x, y⟩ := by
  have hm := List.mem_of_find?_eq_some h
  have hp := List.find?_some h
  rw [decide_eq_true_eq] at hp
  exact ⟨hm, (position_eq_iff _ _ _).mpr hp⟩

lemma findPieceAt_eq_none (pieces : List Piece) (x y : Int) :
    findPieceAt pieces x y = none ↔ ∀ q ∈ pieces, q.position ≠ ⟨x, y⟩ := by
  rw [findPieceAt, List.find?_eq_none]
  constructor
  · intro h q hq hpos
    have := h q hq
    rw [decide_eq_true_eq] at this
    exact this ((position_eq_iff _ _ _).mp hpos)
  · intro h q hq
    rw [decide_eq_true_eq]
    intro hc
    exact h q hq ((position_eq_iff _ _ _).mpr hc)

lemma hasPieceAt_eq_false (pieces : List Piece) (x y : Int) :
    hasPieceAt pieces x y = false ↔ ∀ q ∈ pieces, q.position ≠ ⟨x, y⟩ := by
  rw [hasPieceAt, ← Bool.not_eq_true, List.any_eq_true]
  constructor
  · intro h q hq hpos
    exact h ⟨q, hq, decide_eq_true ((position_eq_iff _ _ _).mp hpos)⟩
  · rintro h ⟨q, hq, hdec⟩
    rw [decide_eq_true_eq] at hdec
    exact h q hq ((position_eq_iff _ _ _).mpr hdec)

lemma findPieceAt_eq_some_iff_of_distinct (pieces : List Piece) (x y : Int)
    (q : Piece) (hd : pieces.Pairwise (fun p r => p.position ≠ r.position)) :
    findPieceAt pieces x y = some q ↔ q ∈ pieces ∧ q.position = ⟨x, y⟩ := by
  constructor
  · exact findPieceAt_eq_some pieces x y q
  · rintro ⟨hq, hpos⟩
    induction pieces with
    | nil => cases hq
    | cons p rest ih =>
      rw [List.pairwise_cons] at hd
      by_cases hp : p.position = (⟨x, y⟩ : Position)
      · have hqp : q = p := by
          rcases List.mem_cons.mp hq with h | h
          · exact h
          · exact absurd (hp.trans hpos.symm) (hd.1 q h)
        subst hqp
        rw [findPieceAt, List.find?_cons_of_pos]
        exact decide_eq_true ((position_eq_iff _ _ _).mp hp)
      · have hqp : q ≠ p := fun he => hp (he ▸ hpos)
        have hq' : q ∈ rest := (List.mem_cons.mp hq).resolve_left hqp
        have hpredF : ¬ ((fun r : Piece =>
            decide (r.position.x = x ∧ r.position.y = y)) p = true) := by
          rw [decide_eq_true_eq]
          intro hc
          exact hp ((position_eq_iff _ _ _).mpr hc)
        have hstep : findPieceAt (p :: rest) x y = findPieceAt rest x y := by
          unfold findPieceAt
          exact List.find?_cons_of_neg _ hpredF
        rw [hstep]
        exact ih hd.2 hq'

lemma captureMoveInDir_eq_some_iff (piece : Piece) (bc : BoardConfig)
    (dir : Position) (m : Position) :
    captureMoveInDir piece bc dir = some m ↔
      (∃ q, findPieceAt bc.pieces (piece.position.x + dir.x) (piece.position.y + dir.y)
          = some q ∧ piece.color ≠ q.color) ∧
      m = ⟨piece.position.x + dir.x + dir.x, piece.position.y + dir.y + dir.y⟩ ∧
      insideBoard bc m ∧
      hasPieceAt bc.pieces m.x m.y = false := by
  unfold captureMoveInDir
  simp only []
  cases hf : findPieceAt bc.pieces (piece.position.x + dir.x) (piece.position.y + dir.y) with
  | none => simp
  | some occ =>
    show (if piece.color = occ.color then none
      else if insideBoard bc ⟨piece.position.x + dir.x + dir.x,
            piece.position.y + dir.y + dir.y⟩ ∧
          hasPieceAt bc.pieces (piece.position.x + dir.x + dir.x)
            (piece.position.y + dir.y + dir.y) = false
        then some ⟨piece.position.x + dir.x + dir.x,
          piece.position.y + dir.y + dir.y⟩
        else none) = some m ↔ _
    by_cases hc : piece.color = occ.color
    · simp [hc]
    · rw [if_neg hc]
      by_cases hcond : insideBoard bc ⟨piece.position.x + dir.x + dir.x,
            piece.position.y + dir.y + dir.y⟩ ∧
          hasPieceAt bc.pieces (piece.position.x + dir.x + dir.x)
            (piece.position.y + dir.y + dir.y) = false
      · rw [if_pos hcond]
        constructor
        · intro h
          injection h with h
          subst h
          exact ⟨⟨occ, rfl, hc⟩, rfl, hcond.1, hcond.2⟩
        · rintro ⟨_, hm, _, _⟩
          rw [hm]
      · rw [if_neg hcond]
        constructor
        · rintro ⟨⟩
        · rintro ⟨_, hm, hin, hocc⟩
          subst hm
          exact absurd ⟨hin, hocc⟩ hcond

lemma stepMoveInDir_eq_some_iff (piece : Piece) (bc : BoardConfig)
    (dir : Position) (m : Position) :
    stepMoveInDir piece bc dir = some m ↔
      m = ⟨piece.position.x + dir.x, piece.position.y + dir.y⟩ ∧
      insideBoard bc m ∧
      findPieceAt bc.pieces (piece.position.x + dir.x) (piece.position.y + dir.y)
        = none := by
  unfold stepMoveInDir
  simp only []
  by_cases hin : insideBoard bc ⟨piece.position.x + dir.x, piece.position.y + dir.y⟩
  · rw [if_pos hin]
    cases hf : findPieceAt bc.pieces (piece.position.x + dir.x) (piece.position.y + dir.y) with
    | none =>
      constructor
      · intro h
        injection h with h
        subst h
        exact ⟨rfl, hin, rfl⟩
      · rintro ⟨hm, _, _⟩
        rw [hm]
    | some occ =>
      constructor
      · rintro ⟨⟩
      · rintro ⟨hm, _, hnone⟩
        cases hnone
  · rw [if_neg hin]
    constructor
    · rintro ⟨⟩
    · rintro ⟨hm, hin2, _⟩
      exact absurd (hm ▸ hin2) hin

lemma mem_getCaptureMoves_iff (piece : Piece) (bc : BoardConfig)
    (dirs caps : List Position) (m : Position) :
    m ∈ getCaptureMoves piece bc dirs caps ↔
      ∃ dir ∈ dirs, captureMoveInDir piece bc dir = some m := by
  simp [getCaptureMoves, List.mem_filterMap]

lemma allowedMoves_of_captures_ne_nil (piece : Piece) (bc : BoardConfig)
    (h : getCaptureMoves piece bc (checkerDirections piece) [] ≠ []) :
    allowedMovesChecker piece bc
      = getCaptureMoves piece bc (checkerDirections piece) [] := by
  unfold allowedMovesChecker
  rw [if_pos (List.length_pos.mpr h)]

lemma allowedMoves_of_captures_eq_nil (piece : Piece) (bc : BoardConfig)
    (h : getCaptureMoves piece bc (checkerDirections piece) [] = []) :
    allowedMovesChecker piece bc
      = (checkerDirections piece).filterMap (stepMoveInDir piece bc) := by
  simp [allowedMovesChecker, h]

lemma not_occupied_of_mem_allowedMoves (piece : Piece) (bc : BoardConfig)
    (m : Position) (hm : m ∈ allowedMovesChecker piece bc) :
    ∀ q ∈ bc.pieces, q.position ≠ m := by
  by_cases hcap : getCaptureMoves piece bc (checkerDirections piece) [] = []
  · rw [allowedMoves_of_captures_eq_nil piece bc hcap, List.mem_filterMap] at hm
    obtain ⟨dir, _, hstep⟩ := hm
    obtain ⟨hmpos, _, hnone⟩ := (stepMoveInDir_eq_some_iff piece bc dir m).mp hstep
    rw [findPieceAt_eq_none] at hnone
    intro q hq
    rw [hmpos]
    exact hnone q hq
  · rw [allowedMoves_of_captures_ne_nil piece bc hcap,
      mem_getCaptureMoves_iff] at hm
    obtain ⟨dir, _, hcapm⟩ := hm
    obtain ⟨_, _, _, hfree⟩ := (captureMoveInDir_eq_some_iff piece bc dir m).mp hcapm
    rw [hasPieceAt_eq_false] at hfree
    intro q hq hpos
    exact hfree q hq (by cases m; exact hpos)



lemma getMovementRulesForPiece_ok (piece : Piece) (rules : MovementRules)
    (h : getMovementRulesForPiece piece = Except.ok rules) :
    rules = getCheckerMovementRules := by
  unfold getMovementRulesForPiece at h
  by_cases ht : piece.type = "checker"
  · rw [if_pos ht] at h
    injection h with h
    exact h.symm
  · rw [if_neg ht] at h
    cases h

lemma movePiece_spec (bc : BoardConfig) (cur : Nat) (piece : Piece)
    (newPos : Position) (st' : MoveOutcome)
    (hok : movePiece bc cur piece newPos = Except.ok st') :
    ((capturedPieceFor bc piece newPos).isSome = true ∧
      allowedMovesChecker (movedPieceOf piece newPos) (boardAfterMove bc piece newPos) ≠ [] ∧
      st' = ⟨boardAfterMove bc piece newPos,
        allowedMovesChecker (movedPieceOf piece newPos) (boardAfterMove bc piece newPos),
        some (movedPieceOf piece newPos), cur⟩) ∨
    ((capturedPieceFor bc piece newPos = none ∨
      allowedMovesChecker (movedPieceOf piece newPos) (boardAfterMove bc piece newPos) = []) ∧
      st' = ⟨boardAfterMove bc piece newPos, [], none, togglePlayer cur⟩) := by
  unfold movePiece at hok
  by_cases hcap : (capturedPieceFor bc piece newPos).isSome = true
  · rw [if_pos hcap] at hok
    cases hr : getMovementRulesForPiece (movedPieceOf piece newPos) with
    | error e => rw [hr] at hok; cases hok
    | ok rules =>
      rw [hr] at hok
      have hrules := getMovementRulesForPiece_ok _ _ hr
      subst hrules
      simp only [getCheckerMovementRules] at hok
      by_cases hlen : (allowedMovesChecker (movedPieceOf piece newPos)
          (boardAfterMove bc piece newPos)).length > 0
      · rw [if_pos hlen] at hok
        injection hok with hok
        exact Or.inl ⟨hcap, List.length_pos.mp hlen, hok.symm⟩
      · rw [if_neg hlen] at hok
        injection hok with hok
        refine Or.inr ⟨Or.inr ?_, hok.symm⟩
        have h0 : (allowedMovesChecker (movedPieceOf piece newPos)
            (boardAfterMove bc piece newPos)).length = 0 := by omega
        exact List.length_eq_zero.mp h0
  · rw [if_neg hcap] at hok
    injection hok with hok
    refine Or.inr ⟨Or.inl ?_, hok.symm⟩
    exact Option.not_isSome_iff_eq_none.mp hcap

lemma checkerDirections_x (piece : Piece) :
    ∀ dir ∈ checkerDirections piece, dir.x = 1 ∨ dir.x = -1 := by
  intro dir hdir
  unfold checkerDirections at hdir
  split_ifs at hdir <;> fin_cases hdir <;> simp

/-- C1 counterexample: the draft generator in `Checkers.svelte` does not
enforce capture precedence.  With a red checker on (2,2), a blue checker on
(3,3) and (4,4) free, the jump to (4,4) is a legal capture (the rules.ts
capture generator finds it on the same board and directions), yet the draft
`allowedMoves` list also contains the non-capturing step destination (1,3):
the returned list is not capture-only. -/
theorem capturePrecedence_draft_counterexample :
    getCaptureMoves c1Piece c1Board (CheckersDraft.draftDirections c1Piece) [] = [⟨4, 4⟩] ∧
    CheckersDraft.allowedMovesDraft c1Piece c1Board = [⟨4, 4⟩, ⟨1, 3⟩] ∧
    (⟨1, 3⟩ : Position) ∈ CheckersDraft.allowedMovesDraft c1Piece c1Board ∧
    stepMoveInDir c1Piece c1Board ⟨-1, 1⟩ = some ⟨1, 3⟩ := by
  decide

/-- C1 (amended): the generator of rules.ts / part_001 does enforce capture
precedence: whenever `getCaptureMoves` finds at least one capture for a
piece, `allowedMoves` returns exactly that capture list, and every returned
destination is a two-step jump over an adjacent opponent — never a one-step
destination.  (The draft generator in `Checkers.svelte` violates this; see
the counterexample.) -/
theorem capturePrecedence_rules (piece : Piece) (bc : BoardConfig)
    (h : getCaptureMoves piece bc (checkerDirections piece) [] ≠ []) :
    allowedMovesChecker piece bc
      = getCaptureMoves piece bc (checkerDirections piece) [] ∧
    ∀ m ∈ allowedMovesChecker piece bc,
      (∃ dir ∈ checkerDirections piece,
        m = ⟨piece.position.x + dir.x + dir.x, piece.position.y + dir.y + dir.y⟩ ∧
        ∃ q, findPieceAt bc.pieces (piece.position.x + dir.x) (piece.position.y + dir.y)
            = some q ∧ piece.color ≠ q.color) ∧
      ∀ dir ∈ checkerDirections piece,
        m ≠ ⟨piece.position.x + dir.x, piece.position.y + dir.y⟩ := by
  refine ⟨allowedMoves_of_captures_ne_nil piece bc h, ?_⟩
  intro m hm
  rw [allowedMoves_of_captures_ne_nil piece bc h, mem_getCaptureMoves_iff] at hm
  obtain ⟨dir, hdir, hcap⟩ := hm
  obtain ⟨⟨q, hq, hqc⟩, hmpos, _, _⟩ := (captureMoveInDir_eq_some_iff piece bc dir m).mp hcap
  constructor
  · exact ⟨dir, hdir, hmpos, q, hq, hqc⟩
  · intro dir' hdir' hstep
    rcases checkerDirections_x piece dir hdir with h1 | h1 <;>
      rcases checkerDirections_x piece dir' hdir' with h2 | h2 <;>
      · rw [hmpos] at hstep
        have := congrArg Position.x hstep
        simp only [] at this
        omega

/-- C1 witness: on an 8×8 board with a red checker on (0,0) and a blue
checker on (1,1), the rules.ts generator has a capture and returns exactly
the capture list. -/
theorem capturePrecedence_rules_witness :
    allowedMovesChecker w1Piece w1Board
      = getCaptureMoves w1Piece w1Board (checkerDirections w1Piece) [] :=
  (capturePrecedence_rules w1Piece w1Board (by decide)).1

/-- C2: the code is wrong here.  After the capture (0,0) → (2,2) that
removes the blue checker on (1,1), the moved piece has no further capture
(its capture list at (2,2) is empty), so the claim — and the comments and
log messages inside `movePiece` itself — require the continuation state to
be cleared and `currentPlayer` to flip.  Instead `movePiece` re-invokes the
unfiltered generator, gets the two step destinations (3,3) and (1,3), and
returns early: `currentPlayer` stays red and the step moves are offered as
a "continuation". -/
theorem continuation_unfiltered_bug :
    (capturedPieceFor c2Board c2Piece ⟨2, 2⟩).isSome = true ∧
    getCaptureMoves c2Moved c2BoardAfter (checkerDirections c2Moved) [] = [] ∧
    movePiece c2Board redColor c2Piece ⟨2, 2⟩
      = Except.ok ⟨c2BoardAfter, [⟨3, 3⟩, ⟨1, 3⟩], some c2Moved, redColor⟩ :=
  ⟨by decide, by decide, by rfl⟩

/-- C7: clicking a piece of the non-current player is rejected — the guard
`clickedPiece.color === currentPlayer` fails, the handler falls through (the
code's InvalidSelection outcome), and the whole component game state (board,
selection, legal-move list, current player) is returned unchanged. -/
theorem selectOpponentPiece_rejected (st : GameState) (clickedPiece : Piece)
    (h : clickedPiece.color ≠ st.currentPlayer) :
    selectPieceClick st clickedPiece = Except.ok st := by
  unfold selectPieceClick
  rw [if_neg h]

/-- C7 witness: clicking the blue checker on (5,5) while it is red's turn
leaves the concrete state untouched. -/
theorem selectOpponentPiece_rejected_witness :
    selectPieceClick c7State c7Piece = Except.ok c7State :=
  selectOpponentPiece_rejected c7State c7Piece (by decide)

/-- C8 counterexample: the capture (4,0) → (6,2) removes the blue checker on
(5,1) and leaves the moved piece with no further capture, yet `movePiece`
does not flip `currentPlayer` (it stays red) and does not return to the idle
state, because the unfiltered continuation check sees the step destinations
(7,3) and (5,3). -/
theorem flipTurn_counterexample :
    (capturedPieceFor c8Board c8Piece ⟨6, 2⟩).isSome = true ∧
    getCaptureMoves c8Moved c8BoardAfter (checkerDirections c8Moved) [] = [] ∧
    movePiece c8Board redColor c8Piece ⟨6, 2⟩
      = Except.ok ⟨c8BoardAfter, [⟨7, 3⟩, ⟨5, 3⟩], some c8Moved, redColor⟩ :=
  ⟨by decide, by decide, by rfl⟩

/-- C8 (amended): committing a non-capturing move always flips
`currentPlayer` and deselects; committing a capture move after which the
moved piece has no legal move at all (the re-invoked generator returns the
empty list — so in particular no capture and no step) also flips and
deselects.  A capture that leaves step moves but no captures keeps the turn
instead — the bug recorded under C2. -/
theorem flipTurn_on_exhausted_move (bc : BoardConfig) (cur : Nat) (piece : Piece)
    (newPos : Position) (st' : MoveOutcome)
    (hok : movePiece bc cur piece newPos = Except.ok st')
    (h : capturedPieceFor bc piece newPos = none ∨
      allowedMovesChecker (movedPieceOf piece newPos) (boardAfterMove bc piece newPos) = []) :
    st'.currentPlayer = togglePlayer cur ∧
    st'.selectedPiece = none ∧
    st'.validMoves = [] := by
  rcases movePiece_spec bc cur piece newPos st' hok with ⟨hcap, hne, hst⟩ | ⟨_, hst⟩
  · rcases h with h | h
    · rw [h] at hcap
      cases hcap
    · exact absurd h hne
  · rw [hst]
    exact ⟨rfl, rfl, rfl⟩

/-- C8 witness: the plain step (0,0) → (1,1) on a one-piece board flips the
player to blue, deselects and offers no continuation moves. -/
theorem flipTurn_on_exhausted_move_witness :
    w8Outcome.currentPlayer = togglePlayer redColor ∧
    w8Outcome.selectedPiece = none ∧
    w8Outcome.validMoves = [] :=
  flipTurn_on_exhausted_move w8Board redColor w8Piece ⟨1, 1⟩ w8Outcome
    (by rfl) (Or.inl (by decide))

/-- C10: `getMovementRulesForPiece` returns the checker movement rules for
every piece whose `type` is `'checker'` and throws `Unsupported piece type`
for every other `type`. -/
theorem movementRules_lookup (piece : Piece) :
    (piece.type = "checker" →
      getMovementRulesForPiece piece = Except.ok getCheckerMovementRules) ∧
    (piece.type ≠ "checker" →
      getMovementRulesForPiece piece
        = Except.error ("Unsupported piece type: " ++ piece.type)) := by
  constructor <;> intro h <;> simp [getMovementRulesForPiece, h]

/-- C10 witness: a concrete `'pawn'` piece is rejected with the error
message and a concrete `'checker'` piece gets the checker rules. -/
theorem movementRules_lookup_witness :
    getMovementRulesForPiece c10Pawn
      = Except.error ("Unsupported piece type: " ++ "pawn") ∧
    getMovementRulesForPiece c10Checker = Except.ok getCheckerMovementRules :=
  ⟨(movementRules_lookup c10Pawn).2 (by decide),
   (movementRules_lookup c10Checker).1 rfl⟩

lemma movedPieceOf_id (piece : Piece) (newPosition : Position) :
    (movedPieceOf piece newPosition).id = piece.id := by
  unfold movedPieceOf
  split <;> rfl

lemma movedPieceOf_position (piece : Piece) (newPosition : Position) :
    (movedPieceOf piece newPosition).position = newPosition := by
  unfold movedPieceOf
  split <;> rfl

lemma movedPieceOf_king_mono (piece : Piece) (newPosition : Position)
    (h : piece.king = true) : (movedPieceOf piece newPosition).king = true := by
  unfold movedPieceOf
  split <;> simp [h]

lemma capturedPieceFor_spec (bc : BoardConfig) (piece : Piece)
    (newPosition : Position) (c : Piece)
    (h : capturedPieceFor bc piece newPosition = some c) :
    c ∈ bc.pieces ∧ c.position ≠ piece.position ∧ c.position ≠ newPosition := by
  unfold capturedPieceFor at h
  by_cases habs : (newPosition.x - piece.position.x).natAbs = 2 ∧
      (newPosition.y - piece.position.y).natAbs = 2
  · rw [if_pos habs] at h
    obtain ⟨hmem, hpos⟩ := findPieceAt_eq_some _ _ _ _ h
    refine ⟨hmem, ?_, ?_⟩
    · intro he
      have hx := congrArg Position.x (he.symm.trans hpos)
      simp only [] at hx
      rcases Int.natAbs_eq_iff.mp habs.1 with h2 | h2 <;> omega
    · intro he
      have hx := congrArg Position.x (he.symm.trans hpos)
      simp only [] at hx
      rcases Int.natAbs_eq_iff.mp habs.1 with h2 | h2 <;> omega
  · rw [if_neg habs] at h
    cases h

lemma erasedPieces_sublist (bc : BoardConfig) (piece : Piece)
    (newPosition : Position) :
    (erasedPieces bc piece newPosition).Sublist bc.pieces := by
  unfold erasedPieces
  split
  · exact List.erase_sublist _ _
  · exact List.Sublist.refl _

lemma piece_mem_erasedPieces (bc : BoardConfig) (piece : Piece)
    (newPosition : Position) (hmem : piece ∈ bc.pieces) :
    piece ∈ erasedPieces bc piece newPosition := by
  unfold erasedPieces
  cases h : capturedPieceFor bc piece newPosition with
  | none => exact hmem
  | some c =>
    obtain ⟨_, hcpos, _⟩ := capturedPieceFor_spec bc piece newPosition c h
    unfold removePieceList
    exact (List.mem_erase_of_ne (fun he => hcpos (by rw [he]))).mpr hmem

lemma boardAfterMove_pieces (bc : BoardConfig) (piece : Piece)
    (newPosition : Position) :
    (boardAfterMove bc piece newPosition).pieces
      = (erasedPieces bc piece newPosition).map
        (fun p => if p.id = piece.id then movedPieceOf piece newPosition else p) := rfl

lemma boardAfterMove_size (bc : BoardConfig) (piece : Piece)
    (newPosition : Position) :
    (boardAfterMove bc piece newPosition).size = bc.size := rfl

lemma nodup_of_pairwise_positions (l : List Piece)
    (hd : l.Pairwise (fun p q => p.position ≠ q.position)) : l.Nodup :=
  hd.imp (fun h he => h (congrArg Piece.position he))

lemma find?_update_by_id (l : List Piece) (pid : String) (newP : Piece)
    (hnew : newP.id = pid) (h : ∃ q ∈ l, q.id = pid) :
    (l.map (fun p => if p.id = pid then newP else p)).find?
      (fun p => decide (p.id = pid)) = some newP := by
  induction l with
  | nil =>
    obtain ⟨q, hq, _⟩ := h
    cases hq
  | cons a rest ih =>
    rw [List.map_cons]
    by_cases ha : a.id = pid
    · rw [if_pos ha]
      exact List.find?_cons_of_pos _ (decide_eq_true hnew)
    · rw [if_neg ha, List.find?_cons_of_neg _ (by simpa using ha)]
      refine ih ?_
      obtain ⟨q, hq, hqid⟩ := h
      rcases List.mem_cons.mp hq with rfl | hq'
      · exact absurd hqid ha
      · exact ⟨q, hq', hqid⟩

lemma pairwise_update (l : List Piece) (pid : String) (newP : Piece)
    (hids : (l.map Piece.id).Nodup)
    (hpos : ∀ q ∈ l, q.position ≠ newP.position)
    (hd : l.Pairwise (fun p q => p.position ≠ q.position)) :
    (l.map (fun p => if p.id = pid then newP else p)).Pairwise
      (fun p q => p.position ≠ q.position) := by
  induction l with
  | nil => exact List.Pairwise.nil
  | cons a rest ih =>
    rw [List.map_cons] at *
    rw [List.nodup_cons] at hids
    rw [List.pairwise_cons] at hd
    rw [List.pairwise_cons]
    constructor
    · intro b hb
      rw [List.mem_map] at hb
      obtain ⟨q, hq, hbq⟩ := hb
      by_cases ha : a.id = pid
      · rw [if_pos ha]
        have hqid : q.id ≠ pid := by
          intro hqpid
          exact hids.1 (ha ▸ hqpid ▸ List.mem_map_of_mem Piece.id hq)
        rw [if_neg hqid] at hbq
        rw [← hbq]
        exact fun he => hpos q (List.mem_cons_of_mem a hq) he.symm
      · rw [if_neg ha]
        by_cases hqid : q.id = pid
        · rw [if_pos hqid] at hbq
          rw [← hbq]
          exact hpos a (List.mem_cons_self a rest)
        · rw [if_neg hqid] at hbq
          rw [← hbq]
          exact hd.1 q hq
    · exact ih hids.2 (fun q hq => hpos q (List.mem_cons_of_mem a hq)) hd.2

lemma mem_allowedMoves_steps_iff (piece : Piece) (bc : BoardConfig)
    (hcap : getCaptureMoves piece bc (checkerDirections piece) [] = [])
    (m : Position) :
    m ∈ allowedMovesChecker piece bc ↔
      ∃ dir ∈ checkerDirections piece,
        m = ⟨piece.position.x + dir.x, piece.position.y + dir.y⟩ ∧
        insideBoard bc m ∧
        findPieceAt bc.pieces m.x m.y = none := by
  rw [allowedMoves_of_captures_eq_nil piece bc hcap, List.mem_filterMap]
  constructor
  · rintro ⟨dir, hdir, hs⟩
    obtain ⟨hm, hin, hf⟩ := (stepMoveInDir_eq_some_iff piece bc dir m).mp hs
    refine ⟨dir, hdir, hm, hin, ?_⟩
    rw [hm]
    exact hf
  · rintro ⟨dir, hdir, hm, hin, hf⟩
    refine ⟨dir, hdir, (stepMoveInDir_eq_some_iff piece bc dir m).mpr ⟨hm, hin, ?_⟩⟩
    rw [hm] at hf
    exact hf

lemma validBoard_preserved (bc : BoardConfig) (cur : Nat) (piece : Piece)
    (newPos : Position) (st' : MoveOutcome)
    (hvalid : ValidBoard bc)
    (hm : newPos ∈ allowedMovesChecker piece bc)
    (hok : movePiece bc cur piece newPos = Except.ok st') :
    ValidBoard st'.board := by
  have hboard : st'.board = boardAfterMove bc piece newPos := by
    rcases movePiece_spec bc cur piece newPos st' hok with ⟨_, _, hst⟩ | ⟨_, hst⟩ <;>
      rw [hst]
  rw [hboard]
  have hsub := erasedPieces_sublist bc piece newPos
  have hids1 : ((erasedPieces bc piece newPos).map Piece.id).Nodup :=
    (hvalid.1).sublist (hsub.map Piece.id)
  have hd1 : (erasedPieces bc piece newPos).Pairwise
      (fun p q => p.position ≠ q.position) := hvalid.2.sublist hsub
  have hfree : ∀ q ∈ erasedPieces bc piece newPos,
      q.position ≠ (movedPieceOf piece newPos).position := by
    intro q hq
    rw [movedPieceOf_position]
    exact not_occupied_of_mem_allowedMoves piece bc newPos hm q (hsub.subset hq)
  constructor
  · rw [boardAfterMove_pieces]
    have hmapid : ((erasedPieces bc piece newPos).map
        (fun p => if p.id = piece.id then movedPieceOf piece newPos else p)).map Piece.id
        = (erasedPieces bc piece newPos).map Piece.id := by
      rw [List.map_map]
      refine List.map_congr_left ?_
      intro p _
      by_cases hp : p.id = piece.id
      · simp [hp, movedPieceOf_id]
      · simp [hp]
    rw [hmapid]
    exact hids1
  · rw [boardAfterMove_pieces]
    exact pairwise_update _ piece.id _ hids1 hfree hd1

lemma king_monotone (bc : BoardConfig) (cur : Nat) (piece : Piece)
    (newPos : Position) (st' : MoveOutcome)
    (hids : (bc.pieces.map Piece.id).Nodup)
    (hmem : piece ∈ bc.pieces)
    (hok : movePiece bc cur piece newPos = Except.ok st') :
    ∀ q' ∈ st'.board.pieces, ∃ q ∈ bc.pieces,
      q.id = q'.id ∧ (q.king = true → q'.king = true) := by
  have hboard : st'.board = boardAfterMove bc piece newPos := by
    rcases movePiece_spec bc cur piece newPos st' hok with ⟨_, _, hst⟩ | ⟨_, hst⟩ <;>
      rw [hst]
  rw [hboard, boardAfterMove_pieces]
  intro q' hq'
  rw [List.mem_map] at hq'
  obtain ⟨q0, hq0, hfq⟩ := hq'
  have hq0mem : q0 ∈ bc.pieces := (erasedPieces_sublist bc piece newPos).subset hq0
  by_cases hid : q0.id = piece.id
  · rw [if_pos hid] at hfq
    have hq0piece : q0 = piece := List.inj_on_of_nodup_map hids hq0mem hmem hid
    refine ⟨q0, hq0mem, ?_, ?_⟩
    · rw [← hfq, movedPieceOf_id, hid]
    · intro hk
      rw [← hfq]
      rw [hq0piece] at hk
      exact movedPieceOf_king_mono piece newPos hk
  · rw [if_neg hid] at hfq
    refine ⟨q0, hq0mem, by rw [← hfq], ?_⟩
    rw [← hfq]
    exact id

/-- C3 counterexample: the promotion rows are hard-coded to 7 and 0, they
are not the board's back ranks.  On an 8×10 board the red back rank is row
`height - 1 = 9`, yet the committed step (0,8) → (1,9) leaves the piece a
non-king: the promotion check compares against the literal 7. -/
theorem promotion_backRank_counterexample :
    movePiece c3Board redColor c3Piece ⟨1, 9⟩
      = Except.ok ⟨⟨⟨8, 10⟩, [⟨"r3", ⟨1, 9⟩, redColor, "checker", false⟩]⟩,
          [], none, blueColor⟩ ∧
    (9 : Int) = c3Board.size.y - 1 ∧
    (movedPieceOf c3Piece ⟨1, 9⟩).king = false :=
  ⟨by rfl, by decide, by decide⟩

/-- C3 (amended): on boards whose playing rows match the hard-coded
promotion rows — in particular the standard 8×8 board, where row 7 is red's
far rank and row 0 is blue's — a piece whose committed destination row is 7
(red) or 0 (blue) has `king = true` immediately after the commit; the check
fires after the position update and before the capture-continuation
re-evaluation (the continuation list, when non-empty, is computed from the
already-promoted piece on the post-move board); and a commit never clears
any surviving piece's `king` flag. -/
theorem promotion_on_hardcoded_rows (bc : BoardConfig) (cur : Nat)
    (piece : Piece) (newPos : Position) (st' : MoveOutcome)
    (hids : (bc.pieces.map Piece.id).Nodup)
    (hmem : piece ∈ bc.pieces)
    (hrank : (piece.color = redColor ∧ newPos.y = 7) ∨
      (piece.color = blueColor ∧ newPos.y = 0))
    (hok : movePiece bc cur piece newPos = Except.ok st') :
    (movedPieceOf piece newPos).king = true ∧
    movedPieceOf piece newPos ∈ st'.board.pieces ∧
    (st'.validMoves = [] ∨
      st'.validMoves = allowedMovesChecker (movedPieceOf piece newPos) st'.board) ∧
    ∀ q' ∈ st'.board.pieces, ∃ q ∈ bc.pieces,
      q.id = q'.id ∧ (q.king = true → q'.king = true) := by
  have hboard : st'.board = boardAfterMove bc piece newPos := by
    rcases movePiece_spec bc cur piece newPos st' hok with ⟨_, _, hst⟩ | ⟨_, hst⟩ <;>
      rw [hst]
  refine ⟨?_, ?_, ?_, king_monotone bc cur piece newPos st' hids hmem hok⟩
  · unfold movedPieceOf
    rw [if_pos hrank]
  · rw [hboard, boardAfterMove_pieces, List.mem_map]
    exact ⟨piece, piece_mem_erasedPieces bc piece newPos hmem, by rw [if_pos rfl]⟩
  · rcases movePiece_spec bc cur piece newPos st' hok with ⟨_, _, hst⟩ | ⟨_, hst⟩
    · right
      rw [hst]
    · left
      rw [hst]

/-- C3 witness: the red checker stepping (2,6) → (3,7) on the standard 8×8
board is promoted on commit. -/
theorem promotion_on_hardcoded_rows_witness :
    (movedPieceOf w3Piece ⟨3, 7⟩).king = true :=
  (promotion_on_hardcoded_rows w3Board redColor w3Piece ⟨3, 7⟩
    ⟨⟨⟨8, 8⟩, [⟨"r3", ⟨3, 7⟩, redColor, "checker", true⟩]⟩, [], none, blueColor⟩
    (by decide) (by decide) (Or.inl ⟨rfl, rfl⟩) (by rfl)).1

/-- C4 counterexample: the generated capture move is the bare destination;
the captured piece's coordinate is not recorded with it.  With red on (0,0)
and blue on (1,1) the capture list is exactly `[(2,2)]` — the jumped piece
sits on (1,1), a coordinate that appears nowhere in the returned move (it is
recomputed at commit time as the from/to midpoint, as the second conjunct
shows). -/
theorem captureRecording_counterexample :
    getCaptureMoves c4Piece c4Board (checkerDirections c4Piece) [] = [⟨2, 2⟩] ∧
    capturedPieceFor c4Board c4Piece ⟨2, 2⟩
      = some ⟨"b4", ⟨1, 1⟩, blueColor, "checker", false⟩ ∧
    (⟨2, 2⟩ : Position) ≠ ⟨1, 1⟩ := by
  decide

/-- C4 (amended): on a board whose pieces occupy distinct squares, a
destination is in the generated capture moves iff, for some allowed
direction, the adjacent diagonal cell holds an opponent piece and the cell
one further step (the destination) is inside the board and unoccupied.  The
returned move holds only the destination coordinate; the captured piece's
coordinate is not recorded with it but is recoverable as the from/to
midpoint — the adjacent cell of the witnessing direction. -/
theorem captureMoves_characterization (piece : Piece) (bc : BoardConfig)
    (dirs caps : List Position) (m : Position)
    (hd : bc.pieces.Pairwise (fun p q => p.position ≠ q.position)) :
    m ∈ getCaptureMoves piece bc dirs caps ↔
      ∃ dir ∈ dirs,
        m = ⟨piece.position.x + dir.x + dir.x, piece.position.y + dir.y + dir.y⟩ ∧
        (∃ q ∈ bc.pieces,
          q.position = ⟨piece.position.x + dir.x, piece.position.y + dir.y⟩ ∧
          q.color ≠ piece.color) ∧
        insideBoard bc m ∧
        ∀ q ∈ bc.pieces, q.position ≠ m := by
  rw [mem_getCaptureMoves_iff]
  constructor
  · rintro ⟨dir, hdir, hc⟩
    obtain ⟨⟨q, hq, hqc⟩, hm, hin, hfree⟩ :=
      (captureMoveInDir_eq_some_iff piece bc dir m).mp hc
    obtain ⟨hqmem, hqpos⟩ := findPieceAt_eq_some _ _ _ _ hq
    rw [hasPieceAt_eq_false] at hfree
    refine ⟨dir, hdir, hm, ⟨q, hqmem, hqpos, fun he => hqc he.symm⟩, hin, ?_⟩
    intro q' hq' heq
    exact hfree q' hq' (by cases m; exact heq)
  · rintro ⟨dir, hdir, hm, ⟨q, hqmem, hqpos, hqc⟩, hin, hfree⟩
    refine ⟨dir, hdir, (captureMoveInDir_eq_some_iff piece bc dir m).mpr
      ⟨⟨q, ?_, fun he => hqc he.symm⟩, hm, hin, ?_⟩⟩
    · exact (findPieceAt_eq_some_iff_of_distinct _ _ _ q hd).mpr ⟨hqmem, hqpos⟩
    · rw [hasPieceAt_eq_false]
      intro q' hq' heq
      exact hfree q' hq' (by cases m; exact heq)

/-- C4 witness: on the concrete board with red on (0,0) and blue on (1,1),
the characterization instantiates to the capture (0,0) → (2,2) over the blue
piece. -/
theorem captureMoves_characterization_witness :
    (⟨2, 2⟩ : Position) ∈ getCaptureMoves c4Piece c4Board (checkerDirections c4Piece) [] :=
  (captureMoves_characterization c4Piece c4Board (checkerDirections c4Piece) []
    ⟨2, 2⟩ (by decide)).mpr
    ⟨⟨1, 1⟩, by decide, by decide,
      ⟨⟨"b4", ⟨1, 1⟩, blueColor, "checker", false⟩, by decide, by decide, by decide⟩,
      by decide, by decide⟩

/-- C5: the one-piece-per-square invariant (together with id uniqueness) is
preserved by every sequence of legal commits: starting from a valid board,
any chain of `movePiece` calls whose destinations come from the generator
leaves a board whose pieces still occupy pairwise distinct squares. -/
theorem occupancy_invariant (bc bc' : BoardConfig)
    (hvalid : ValidBoard bc)
    (hsteps : Relation.ReflTransGen CommitStep bc bc') :
    ValidBoard bc' := by
  induction hsteps with
  | refl => exact hvalid
  | tail hchain hstep ih =>
    obtain ⟨cur, piece, newPos, st', hm, hok, hb⟩ := hstep
    rw [hb]
    exact validBoard_preserved _ cur piece newPos st' ih hm hok

/-- C5 witness: committing the concrete legal jump (0,0) → (2,2) on the
two-piece board keeps the board valid. -/
theorem occupancy_invariant_witness : ValidBoard c5BoardAfter :=
  occupancy_invariant c5Board c5BoardAfter (by decide)
    (Relation.ReflTransGen.single
      ⟨redColor, c5Piece, ⟨2, 2⟩, c5Outcome, by decide, by rfl, rfl⟩)

/-- C6 counterexample: the draft generator in `three/Canvas.svelte` gives an
unmoved non-king piece two-square forward moves.  The unmoved piece at
square center (0.5, 0.5) on the 8×8 board has no legal capture and a legal
one-step destination (1.5, 1.5), yet its legal-move list also contains
(2.5, 2.5) — two diagonal steps away. -/
theorem firstMove_twoStep_counterexample :
    c6Piece.isKing = false ∧
    CanvasDraft.addValidCaptures
      (CanvasDraft.getCaptureMovesCanvas c6Piece.x c6Piece.z c6Piece.isKing 1)
      8 8 c6Scene c6Piece = [] ∧
    (⟨3/2, 3/2⟩ : CanvasDraft.CPos) ∈ CanvasDraft.getLegalMoves c6Piece 8 8 c6Scene ∧
    (⟨5/2, 5/2⟩ : CanvasDraft.CPos) ∈ CanvasDraft.getLegalMoves c6Piece 8 8 c6Scene ∧
    (5/2 : Rat) - c6Piece.x = 2 := by
  refine ⟨rfl, ?_, ?_, ?_, by norm_num [c6Piece]⟩
  · norm_num [CanvasDraft.addValidCaptures, CanvasDraft.getCaptureMovesCanvas,
      CanvasDraft.isWithinBounds, CanvasDraft.getOpponentPieceAt,
      CanvasDraft.isOccupied, c6Piece, c6Scene, CanvasDraft.colorB,
      List.filterMap, List.find?]
  all_goals
    norm_num [CanvasDraft.getLegalMoves, CanvasDraft.getPotentialMoves,
      CanvasDraft.getCaptureMovesCanvas, CanvasDraft.addValidMoves,
      CanvasDraft.addValidCaptures, CanvasDraft.isWithinBounds,
      CanvasDraft.getOpponentPieceAt, CanvasDraft.isOccupied,
      c6Piece, c6Scene, CanvasDraft.colorB, List.filterMap, List.filter,
      List.find?]

/-- C6 (amended): in the rules.ts / part_001 generator, a non-king piece
with no capture gets exactly the in-bounds unoccupied one-step destinations
on its two forward diagonals (`+1` row for red, `-1` for blue) — never a
backward or two-step destination; a king's direction list is the four
diagonals.  (The Canvas.svelte draft violates the one-step part for unmoved
pieces; see the counterexample.) -/
theorem stepMoves_forward_only (piece : Piece) (bc : BoardConfig) :
    (piece.king = false →
      getCaptureMoves piece bc (checkerDirections piece) [] = [] →
      ∀ m, m ∈ allowedMovesChecker piece bc ↔
        ((m = ⟨piece.position.x + 1, piece.position.y + forwardDir piece⟩ ∨
          m = ⟨piece.position.x - 1, piece.position.y + forwardDir piece⟩) ∧
         insideBoard bc m ∧
         findPieceAt bc.pieces m.x m.y = none)) ∧
    (piece.king = true →
      checkerDirections piece = [⟨1, 1⟩, ⟨-1, 1⟩, ⟨1, -1⟩, ⟨-1, -1⟩]) := by
  constructor
  · intro hk hcap m
    have hdirs : checkerDirections piece
        = [⟨1, forwardDir piece⟩, ⟨-1, forwardDir piece⟩] := by
      unfold checkerDirections forwardDir
      rw [hk]
      by_cases hcol : piece.color = redColor <;> simp [hcol]
    rw [mem_allowedMoves_steps_iff piece bc hcap m, hdirs]
    constructor
    · rintro ⟨dir, hdir, hm, hin, hf⟩
      rcases List.mem_cons.mp hdir with rfl | hdir'
      · exact ⟨Or.inl hm, hin, hf⟩
      · rcases List.mem_cons.mp hdir' with rfl | h
        · refine ⟨Or.inr ?_, hin, hf⟩
          rw [hm]
          norm_num
          omega
        · cases h
    · rintro ⟨hm | hm, hin, hf⟩
      · exact ⟨⟨1, forwardDir piece⟩, List.mem_cons_self _ _, hm, hin, hf⟩
      · refine ⟨⟨-1, forwardDir piece⟩, List.mem_cons_of_mem _ (List.mem_cons_self _ _),
          ?_, hin, hf⟩
        rw [hm]
        norm_num
        omega
  · intro hk
    unfold checkerDirections
    rw [hk]
    simp

/-- C6 witness: the non-king red checker on (2,2) of an empty board has no
capture; its generated moves are characterized by the forward one-step
condition (instantiated at (3,3)); and a king's direction list is the four
diagonals. -/
theorem stepMoves_forward_only_witness :
    ((⟨3, 3⟩ : Position) ∈ allowedMovesChecker w6Piece w6Board ↔
      (((⟨3, 3⟩ : Position)
          = ⟨w6Piece.position.x + 1, w6Piece.position.y + forwardDir w6Piece⟩ ∨
        (⟨3, 3⟩ : Position)
          = ⟨w6Piece.position.x - 1, w6Piece.position.y + forwardDir w6Piece⟩) ∧
       insideBoard w6Board ⟨3, 3⟩ ∧
       findPieceAt w6Board.pieces (3 : Int) (3 : Int) = none)) ∧
    checkerDirections w6King = [⟨1, 1⟩, ⟨-1, 1⟩, ⟨1, -1⟩, ⟨-1, -1⟩] :=
  ⟨(stepMoves_forward_only w6Piece w6Board).1 rfl (by decide) ⟨3, 3⟩,
   (stepMoves_forward_only w6King w6Board).2 rfl⟩

/-- C9: immediately after a commit, the legal moves of the moved piece —
looked up by id, as the engine's `legalMoves(pieceId)` query — are exactly
the generator's output for the piece at its new position on the post-move
board: the piece's position has been updated, the captured piece (if any) is
gone from the board, and nothing is derived from the old position. -/
theorem roundTrip_legalMoves (bc : BoardConfig) (cur : Nat) (piece : Piece)
    (newPos : Position) (st' : MoveOutcome)
    (hvalid : ValidBoard bc)
    (hmem : piece ∈ bc.pieces)
    (hok : movePiece bc cur piece newPos = Except.ok st') :
    st'.board = boardAfterMove bc piece newPos ∧
    legalMovesById st'.board piece.id
      = allowedMovesChecker (movedPieceOf piece newPos) st'.board ∧
    (movedPieceOf piece newPos).position = newPos ∧
    ∀ c, capturedPieceFor bc piece newPos = some c → c ∉ st'.board.pieces := by
  have hboard : st'.board = boardAfterMove bc piece newPos := by
    rcases movePiece_spec bc cur piece newPos st' hok with ⟨_, _, hst⟩ | ⟨_, hst⟩ <;>
      rw [hst]
  have hfind : st'.board.pieces.find? (fun p => decide (p.id = piece.id))
      = some (movedPieceOf piece newPos) := by
    rw [hboard, boardAfterMove_pieces]
    exact find?_update_by_id _ piece.id _ (movedPieceOf_id piece newPos)
      ⟨piece, piece_mem_erasedPieces bc piece newPos hmem, rfl⟩
  refine ⟨hboard, ?_, movedPieceOf_position piece newPos, ?_⟩
  · unfold legalMovesById
    rw [hfind]
  · intro c hc
    obtain ⟨hcmem, hcfrom, hcnew⟩ := capturedPieceFor_spec bc piece newPos c hc
    rw [hboard, boardAfterMove_pieces]
    intro hmem'
    rw [List.mem_map] at hmem'
    obtain ⟨q0, hq0, hfq⟩ := hmem'
    have hnd : bc.pieces.Nodup := nodup_of_pairwise_positions _ hvalid.2
    have hl1 : erasedPieces bc piece newPos = bc.pieces.erase c := by
      unfold erasedPieces removePieceList
      rw [hc]
    have hq0ne : q0 ≠ c := by
      intro he
      rw [hl1, he] at hq0
      exact ((List.Nodup.mem_erase_iff hnd).mp hq0).1 rfl
    by_cases hid : q0.id = piece.id
    · rw [if_pos hid] at hfq
      exact hcnew (by rw [← hfq, movedPieceOf_position])
    · rw [if_neg hid] at hfq
      exact hq0ne hfq

/-- C9 witness: after the concrete jump (2,0) → (4,2) that removes the blue
checker on (3,1), the id-lookup query returns the generator's output on the
post-move board. -/
theorem roundTrip_legalMoves_witness :
    legalMovesById c9Outcome.board c9Piece.id
      = allowedMovesChecker (movedPieceOf c9Piece ⟨4, 2⟩) c9Outcome.board :=
  (roundTrip_legalMoves c9Board redColor c9Piece ⟨4, 2⟩ c9Outcome
    (by decide) (by decide) (by rfl)).2.1
